import Mathlib

/-!
Verification development for the voice-assistant dictation program
(single source file src/voice-assistant.py).

Strings are modelled as lists of characters.  Python method semantics used
by the program are embedded explicitly:
* str.lower  -> pyLower, applied characterwise; it is modelled over the
  character ranges the program actually meets (ASCII A-Z and the Cyrillic
  range, which covers both configured wake-word alphabets) and is the
  identity elsewhere.
* str.strip  -> pyStrip (removes leading and trailing whitespace).
* str.find / the in operator -> pyFind / containsSub (first occurrence of a
  substring, scanning left to right).
Wall-clock time (time.time()) is modelled with rational timestamps carried
by each poll of the audio queue.  Recognizer JSON payloads are modelled by
the three shapes the error-handling design distinguishes: not valid JSON,
valid JSON without the expected field, and valid JSON carrying a text field.
An uncaught Python exception is modelled as an Except.error result.
-/

namespace VoiceAssistant

/-- Characterwise model of Python str.lower restricted to the alphabets the
program uses: ASCII capitals 65-90 map down by 32, Cyrillic capitals
1040-1071 map down by 32, capital Io 1025 maps to 1105; other characters
are unchanged. -/
def pyLower (c : Char) : Char :=
  if 65 ≤ c.toNat ∧ c.toNat ≤ 90 then Char.ofNat (c.toNat + 32)
  else if 1040 ≤ c.toNat ∧ c.toNat ≤ 1071 then Char.ofNat (c.toNat + 32)
  else if c.toNat = 1025 then Char.ofNat 1105
  else c

/-- The ASCII whitespace characters stripped by Python str.strip. -/
def isPySpace (c : Char) : Bool :=
  c.toNat = 32 || c.toNat = 9 || c.toNat = 10 || c.toNat = 13 ||
  c.toNat = 11 || c.toNat = 12

/-- Model of Python str.strip: drop whitespace at both ends. -/
def pyStrip (s : List Char) : List Char :=
  ((s.dropWhile isPySpace).reverse.dropWhile isPySpace).reverse

/-- Scan the haystack left to right for the needle, reporting the index of
the first position where the needle is a prefix of the rest (model of
Python str.find, restricted to a found result). -/
def findFrom (needle : List Char) : List Char → Nat → Option Nat
  | [], i => if needle.isPrefixOf [] then some i else none
  | c :: t, i =>
    if needle.isPrefixOf (c :: t) then some i else findFrom needle t (i + 1)

/-- Model of Python str.find returning none when absent. -/
def pyFind (needle hay : List Char) : Option Nat := findFrom needle hay 0

/-- Model of the Python in operator on strings. -/
def containsSub (needle hay : List Char) : Bool := (pyFind needle hay).isSome

/-- The two configured languages, in the declared order of the LANGUAGES
dictionary: ru first, then en. -/
inductive Lang where
  | ru
  | en
  deriving DecidableEq, Repr

/-- The wake_words lists of the LANGUAGES configuration, in declared
order. -/
def wake_words : Lang → List (List Char)
  | .ru => ["компьютер".toList, "компютер".toList]
  | .en => ["computer".toList]

/-- Iteration order of the LANGUAGES dictionary (Python dicts preserve
insertion order). -/
def langOrder : List Lang := [.ru, .en]

/-- The loop body of check_wake_word: try each configured wake word in
declared order against the lowered text; on the first word that occurs,
return the original text after the occurrence, stripped. -/
def checkWakeGo (text text_lower : List Char) : List (List Char) → Bool × List Char
  | [] => (false, [])
  | w :: ws =>
    match pyFind w text_lower with
    | some idx => (true, pyStrip (text.drop (idx + w.length)))
    | none => checkWakeGo text text_lower ws

/-- Embedding of check_wake_word (src/voice-assistant.py lines 69-77). -/
def check_wake_word (text : List Char) (lang : Lang) : Bool × List Char :=
  checkWakeGo text (text.map pyLower) (wake_words lang)

/-- SILENCE_TIMEOUT constant (2.0 seconds). -/
def SILENCE_TIMEOUT : ℚ := 2

/-- Shape of one recognizer JSON payload, as distinguished by the
error-handling design: not parseable as JSON, parseable but missing the
expected text field, or carrying a text field. -/
inductive RecPayload where
  | notJson
  | jsonMissing
  | jsonField (t : List Char)
  deriving DecidableEq, Repr

/-- One audio frame together with the recognizer response it would
produce: accepted tells whether AcceptWaveform returned true (a Final
result) or false (a Partial result); payload is the corresponding JSON
payload of Result() or PartialResult(). -/
structure Frame where
  accepted : Bool
  payload : RecPayload
  deriving DecidableEq, Repr

/-- One iteration of the polling loop: item is the frame obtained from the
audio queue (none models queue.Empty), time is the wall-clock value
observed by time.time() during that iteration. -/
structure Poll where
  item : Option Frame
  time : ℚ
  deriving DecidableEq, Repr

/-- Mutable state of listen_for_dictation: the accumulated text fragments
and the last_speech_time variable. -/
structure SessionSt where
  text_parts : List (List Char)
  last_speech_time : ℚ
  deriving DecidableEq, Repr

/-- The silence check of listen_for_dictation (lines 91 and 108): break
out of the loop when at least SILENCE_TIMEOUT has elapsed since
last_speech_time. -/
def afterCheck (p : Poll) (st : SessionSt) : SessionSt × Bool :=
  if SILENCE_TIMEOUT ≤ p.time - st.last_speech_time then (st, true) else (st, false)

/-- One iteration of the listen_for_dictation loop (lines 87-110).  On
queue.Empty the silence check alone runs.  On a frame, AcceptWaveform
selects the Final or Partial branch; json.loads of a payload that is not
valid JSON raises (Except.error); a Final text that strips non-empty is
appended and resets the clock; a Partial text that strips non-empty only
resets the clock; then the silence check runs.  The Bool reports whether
the loop breaks after this iteration. -/
def stepSession (st : SessionSt) (p : Poll) : Except Unit (SessionSt × Bool) :=
  match p.item with
  | none => .ok (afterCheck p st)
  | some f =>
    if f.accepted then
      match f.payload with
      | .notJson => .error ()
      | .jsonMissing => .ok (afterCheck p st)
      | .jsonField t =>
        if pyStrip t = [] then .ok (afterCheck p st)
        else .ok (afterCheck p ⟨st.text_parts ++ [pyStrip t], p.time⟩)
    else
      match f.payload with
      | .notJson => .error ()
      | .jsonMissing => .ok (afterCheck p st)
      | .jsonField t =>
        if pyStrip t = [] then .ok (afterCheck p st)
        else .ok (afterCheck p ⟨st.text_parts, p.time⟩)

/-- Run the listen_for_dictation loop over a trace of polls.  Returns the
final state and, when the loop broke out, the wall-clock time of the
breaking iteration; exhausting the trace without a break returns none
(the real loop would keep polling). -/
def runSession : SessionSt → List Poll → Except Unit (SessionSt × Option ℚ)
  | st, [] => .ok (st, none)
  | st, p :: ps =>
    match stepSession st p with
    | .error e => .error e
    | .ok (st', true) => .ok (st', some p.time)
    | .ok (st', false) => runSession st' ps

/-- The silence-clock update a single poll performs: a frame whose payload
carries a text field that strips non-empty (a non-empty Final or Partial)
moves the clock to the poll time; everything else leaves it. -/
def speechUpd (acc : ℚ) (p : Poll) : ℚ :=
  match p.item with
  | some f =>
    match f.payload with
    | .jsonField t => if pyStrip t = [] then acc else p.time
    | _ => acc
  | none => acc

/-- Wall-clock time of the most recent non-empty speech event in a poll
trace, or the session start time when none occurred. -/
def lastSpeechAt (t0 : ℚ) (ps : List Poll) : ℚ := ps.foldl speechUpd t0

/-- Model of the " ".join operation. -/
def joinSpace : List (List Char) → List Char
  | [] => []
  | [x] => x
  | x :: y :: ys => x ++ ' ' :: joinSpace (y :: ys)

/-- Composition of the delivered text in main (lines 177-185): seed the
part list with the wake-word remainder when non-empty, append the joined
session text when non-empty, and join with single spaces. -/
def composeFull (remainder : List Char) (parts : List (List Char)) : List Char :=
  let all0 : List (List Char) := if remainder = [] then [] else [remainder]
  let dictation := joinSpace parts
  let allParts := if dictation = [] then all0 else all0 ++ [dictation]
  joinSpace allParts

/-- The text that json.loads plus dict.get would extract from a payload in
the wake-word loop: none models a json.loads exception, a missing field
yields the empty default, and a present field yields its text. -/
def wakeText : RecPayload → Option (List Char)
  | .notJson => none
  | .jsonMissing => some []
  | .jsonField t => some t

/-- The per-frame language scan of the wake-word loop (main, lines
155-167): languages are tried in the order given; a language whose
recognizer does not accept the frame is passed over; an accepted frame
with unparseable JSON raises; otherwise the stripped text is checked for
that language's wake words and the scan stops at the first match.  The
result carries the detected language and remainder (if any) together with
the list of languages that were actually evaluated. -/
def wakeScan : List (Lang × Frame) → Except Unit (Option (Lang × List Char) × List Lang)
  | [] => .ok (none, [])
  | (lang, f) :: rest =>
    if f.accepted then
      match wakeText f.payload with
      | none => .error ()
      | some raw =>
        match check_wake_word (pyStrip raw) lang with
        | (true, rem) => .ok (some (lang, rem), [lang])
        | (false, _) =>
          match wakeScan rest with
          | .error e => .error e
          | .ok (res, ev) => .ok (res, lang :: ev)
    else
      match wakeScan rest with
      | .error e => .error e
      | .ok (res, ev) => .ok (res, lang :: ev)

/-- Observable side effects of one dictation cycle of main. -/
inductive Effect where
  | createFresh (lang : Lang)
  | sessionStart (lang : Lang)
  | sessionEnd
  | emit (text : List Char)
  | resetPort (lang : Lang)
  deriving DecidableEq, Repr

/-- The dictation cycle main runs after a wake-word match (lines 169-193),
as a trace of side effects: a fresh recognizer is created, the dictation
session runs, the composed text is handed to the text sink when non-empty,
and then every configured recognizer is reset.  A json.loads exception
inside the session propagates. -/
def dictationCycle (lang : Lang) (remainder : List Char) (t0 : ℚ) (ps : List Poll) :
    Except Unit (List Effect × List Char) :=
  match runSession ⟨[], t0⟩ ps with
  | .error e => .error e
  | .ok (st, _) =>
    let full := composeFull remainder st.text_parts
    .ok ([.createFresh lang, .sessionStart lang, .sessionEnd] ++
         (if full = [] then [] else [.emit full]) ++
         [.resetPort .ru, .resetPort .en], full)

/-- Effect classifiers. -/
def isResetEffect : Effect → Bool
  | .resetPort _ => true
  | _ => false

def isEmitEffect : Effect → Bool
  | .emit _ => true
  | _ => false

def isStartEffect : Effect → Bool
  | .sessionStart _ => true
  | _ => false

/-- Whether some recognizer reset occurs strictly before the first session
start in an effect trace. -/
def someResetBeforeStart : List Effect → Bool
  | [] => false
  | e :: rest =>
    if isStartEffect e then false
    else if isResetEffect e then true
    else someResetBeforeStart rest

/-- The Python exception classes relevant to type_text. -/
inductive PyExc where
  | timeoutExpired
  | calledProcessError
  | fileNotFoundError
  deriving DecidableEq, Repr

/-- Which of those classes are subclasses of subprocess.SubprocessError
(the class caught by type_text): TimeoutExpired and CalledProcessError
are; FileNotFoundError, raised when the executable does not exist, is
an OSError and is not. -/
def isSubprocessError : PyExc → Bool
  | .timeoutExpired => true
  | .calledProcessError => true
  | .fileNotFoundError => false

/-- Outcome of the subprocess.run call inside type_text. -/
inductive RunOutcome where
  | ok
  | raises (e : PyExc)
  deriving DecidableEq, Repr

/-- Log records type_text can produce. -/
inductive LogMsg where
  | infoTyping (t : List Char)
  | errorXdotool (e : PyExc)
  deriving DecidableEq, Repr

/-- Result of a type_text call: the log records written, whether the
external command was invoked, and the exception, if any, that escaped the
function. -/
structure TTResult where
  logs : List LogMsg
  invoked : Bool
  propagated : Option PyExc
  deriving DecidableEq, Repr

/-- Embedding of type_text (lines 54-66): a string that strips to empty
returns immediately with no logging and no invocation; otherwise the info
line is logged and xdotool invoked; a SubprocessError is caught and logged
while any other exception escapes. -/
def type_text (text : List Char) (out : RunOutcome) : TTResult :=
  if pyStrip text = [] then ⟨[], false, none⟩
  else
    match out with
    | .ok => ⟨[.infoTyping text], true, none⟩
    | .raises e =>
      if isSubprocessError e then ⟨[.infoTyping text, .errorXdotool e], true, none⟩
      else ⟨[.infoTyping text], true, some e⟩

/-- What the dispatcher does after a type_text call: an exception escaping
type_text reaches the outer handler of main (line 197), which logs and
calls sys.exit(1); otherwise the loop continues waiting for the next wake
word. -/
inductive DispatchOutcome where
  | backToWaiting
  | processExit
  deriving DecidableEq, Repr

def afterTypeText (r : TTResult) : DispatchOutcome :=
  match r.propagated with
  | none => .backToWaiting
  | some _ => .processExit

/-- The matcher that the tie-break sentence of the spec describes, written
from the claim wording for comparison with check_wake_word: among the
configured phrases that occur in the lowered text, the one whose earliest
occurrence is leftmost wins, with the declared order breaking position
ties; the result carries the winning phrase and its occurrence index. -/
def specEarliestMatch (text : List Char) (lang : Lang) : Option (List Char × Nat) :=
  (wake_words lang).foldl
    (fun best w =>
      match pyFind w (text.map pyLower) with
      | none => best
      | some i =>
        match best with
        | none => some (w, i)
        | some b => if i < b.2 then some (w, i) else best)
    none

/-- An entry of the wake-word scan that produces neither an exception nor
a match: either its recognizer did not accept the frame, or the extracted
text contains none of that language's wake words. -/
def evalNoMatch (x : Lang × Frame) : Prop :=
  x.2.accepted = false ∨
  ∃ raw, wakeText x.2.payload = some raw ∧
    (check_wake_word (pyStrip raw) x.1).1 = false

/-- A text in which the second configured ru wake word occurs earlier in
the text than the first configured one. -/
def cexText : List Char := "компютер компьютер".toList

example : check_wake_word "Hey Computer turn on".toList .en =
    (true, "turn on".toList) := by decide

example : check_wake_word "компьютер привет".toList .ru =
    (true, "привет".toList) := by decide

example : pyStrip "  hello  ".toList = "hello".toList := by decide

example : joinSpace ["hello".toList, "world".toList] = "hello world".toList := by
  decide

/-! ### Helper lemmas about the dictation session -/

theorem afterCheck_eq {p : Poll} {st st' : SessionSt} {b : Bool}
    (h : afterCheck p st = (st', b)) :
    st' = st ∧ (b = true → SILENCE_TIMEOUT ≤ p.time - st.last_speech_time) ∧
      (b = false → p.time - st.last_speech_time < SILENCE_TIMEOUT) := by
  unfold afterCheck at h
  by_cases hc : SILENCE_TIMEOUT ≤ p.time - st.last_speech_time
  · rw [if_pos hc] at h
    cases h
    refine ⟨rfl, fun _ => hc, ?_⟩
    intro hb
    cases hb
  · rw [if_neg hc] at h
    cases h
    refine ⟨rfl, ?_, fun _ => lt_of_not_le hc⟩
    intro hb
    cases hb

theorem stepSession_cases {st st' : SessionSt} {b : Bool} {p : Poll}
    (h : stepSession st p = .ok (st', b)) :
    ∃ stMid, afterCheck p stMid = (st', b) ∧
      stMid.last_speech_time = speechUpd st.last_speech_time p ∧
      (stMid.text_parts = st.text_parts ∨
        ∃ t, pyStrip t ≠ [] ∧ stMid.text_parts = st.text_parts ++ [pyStrip t]) := by
  rcases p with ⟨item, time⟩
  cases item with
  | none =>
    refine ⟨st, ?_, rfl, Or.inl rfl⟩
    simpa [stepSession] using h
  | some f =>
    rcases f with ⟨acc, payload⟩
    cases acc <;> cases payload
    case false.notJson => simp [stepSession] at h
    case false.jsonMissing =>
      refine ⟨st, ?_, rfl, Or.inl rfl⟩
      simpa [stepSession] using h
    case false.jsonField t =>
      by_cases hs : pyStrip t = []
      · refine ⟨st, ?_, by simp [speechUpd, hs], Or.inl rfl⟩
        simp only [stepSession, hs, if_true, reduceIte] at h
        simpa using h
      · refine ⟨⟨st.text_parts, time⟩, ?_, by simp [speechUpd, hs], Or.inl rfl⟩
        simp only [stepSession, hs, reduceIte] at h
        simpa using h
    case true.notJson => simp [stepSession] at h
    case true.jsonMissing =>
      refine ⟨st, ?_, rfl, Or.inl rfl⟩
      simpa [stepSession] using h
    case true.jsonField t =>
      by_cases hs : pyStrip t = []
      · refine ⟨st, ?_, by simp [speechUpd, hs], Or.inl rfl⟩
        simp only [stepSession, hs, if_true, reduceIte] at h
        simpa using h
      · refine ⟨⟨st.text_parts ++ [pyStrip t], time⟩, ?_, by simp [speechUpd, hs],
          Or.inr ⟨t, hs, rfl⟩⟩
        simp only [stepSession, hs, reduceIte] at h
        simpa using h

theorem stepSession_last {st st' : SessionSt} {b : Bool} {p : Poll}
    (h : stepSession st p = .ok (st', b)) :
    st'.last_speech_time = speechUpd st.last_speech_time p ∧
    (b = true → SILENCE_TIMEOUT ≤ p.time - st'.last_speech_time) ∧
    (b = false → p.time - st'.last_speech_time < SILENCE_TIMEOUT) := by
  obtain ⟨stMid, hchk, hlast, _⟩ := stepSession_cases h
  obtain ⟨hst, hbt, hbf⟩ := afterCheck_eq hchk
  subst hst
  exact ⟨hlast, hbt, hbf⟩

theorem runSession_break {ps : List Poll} : ∀ {st st2 : SessionSt} {T : ℚ},
    runSession st ps = .ok (st2, some T) →
    ∃ pre p suf, ps = pre ++ p :: suf ∧ T = p.time ∧
      SILENCE_TIMEOUT ≤ p.time - lastSpeechAt st.last_speech_time (pre ++ [p]) := by
  induction ps with
  | nil => intro st st2 T h; simp [runSession] at h
  | cons p ps ih =>
    intro st st2 T h
    unfold runSession at h
    cases hstep : stepSession st p with
    | error e => rw [hstep] at h; cases h
    | ok r =>
      rcases r with ⟨st', b⟩
      rw [hstep] at h
      cases b with
      | true =>
        simp only [Except.ok.injEq, Prod.mk.injEq, Option.some.injEq] at h
        obtain ⟨hlast, hbrk, _⟩ := stepSession_last hstep
        refine ⟨[], p, ps, rfl, h.2.symm, ?_⟩
        have : lastSpeechAt st.last_speech_time [p] = st'.last_speech_time := by
          simp [lastSpeechAt, hlast]
        rw [List.nil_append, this]
        exact hbrk rfl
      | false =>
        obtain ⟨pre, q, suf, hsplit, hT, hcond⟩ := ih h
        obtain ⟨hlast, _, _⟩ := stepSession_last hstep
        refine ⟨p :: pre, q, suf, by simp [hsplit], hT, ?_⟩
        simpa [lastSpeechAt, List.foldl_cons, hlast] using hcond

theorem stepSession_parts_ne {st st' : SessionSt} {b : Bool} {p : Poll}
    (h : stepSession st p = .ok (st', b))
    (hne : ∀ q ∈ st.text_parts, q ≠ []) : ∀ q ∈ st'.text_parts, q ≠ [] := by
  obtain ⟨stMid, hchk, _, hparts⟩ := stepSession_cases h
  obtain ⟨hst, _, _⟩ := afterCheck_eq hchk
  subst hst
  rcases hparts with heq | ⟨t, ht, heq⟩
  · rw [heq]; exact hne
  · rw [heq]
    intro q hq
    rcases List.mem_append.mp hq with hq | hq
    · exact hne q hq
    · rw [List.mem_singleton.mp hq]; exact ht

theorem runSession_parts_ne {ps : List Poll} : ∀ {st st2 : SessionSt} {r : Option ℚ},
    runSession st ps = .ok (st2, r) → (∀ q ∈ st.text_parts, q ≠ []) →
    ∀ q ∈ st2.text_parts, q ≠ [] := by
  induction ps with
  | nil =>
    intro st st2 r h hne
    simp only [runSession, Except.ok.injEq, Prod.mk.injEq] at h
    rw [← h.1]
    exact hne
  | cons p ps ih =>
    intro st st2 r h hne
    unfold runSession at h
    cases hstep : stepSession st p with
    | error e => rw [hstep] at h; cases h
    | ok q =>
      rcases q with ⟨st', b⟩
      rw [hstep] at h
      cases b with
      | true =>
        simp only [Except.ok.injEq, Prod.mk.injEq] at h
        rw [← h.1]
        exact stepSession_parts_ne hstep hne
      | false => exact ih h (stepSession_parts_ne hstep hne)

theorem joinSpace_ne_nil {x : List Char} {xs : List (List Char)} (hx : x ≠ []) :
    joinSpace (x :: xs) ≠ [] := by
  cases xs with
  | nil => simpa [joinSpace] using hx
  | cons y ys => simp [joinSpace]

theorem composeFull_eq {rem : List Char} {parts : List (List Char)}
    (h : ∀ q ∈ parts, q ≠ []) :
    composeFull rem parts = joinSpace ((if rem = [] then [] else [rem]) ++ parts) := by
  cases parts with
  | nil => simp [composeFull, joinSpace]
  | cons x xs =>
    have hx : x ≠ [] := h x (List.mem_cons_self x xs)
    have hjoin : joinSpace (x :: xs) ≠ [] := joinSpace_ne_nil hx
    by_cases hrem : rem = []
    · simp [composeFull, hrem, hjoin, joinSpace]
    · simp only [composeFull, hrem, reduceIte, if_neg hjoin]
      cases xs with
      | nil => simp [joinSpace]
      | cons y ys => simp [joinSpace]

/-! ### Helper lemmas about the wake-word matcher -/

theorem checkWakeGo_found {text tl : List Char} :
    ∀ ws : List (List Char), (∃ w ∈ ws, containsSub w tl = true) →
    (checkWakeGo text tl ws).1 = true ∧
    ∃ w ∈ ws, ∃ idx, pyFind w tl = some idx ∧
      (checkWakeGo text tl ws).2 = pyStrip (text.drop (idx + w.length)) := by
  intro ws
  induction ws with
  | nil =>
    intro h
    rcases h with ⟨w, hw, _⟩
    cases hw
  | cons w ws ih =>
    intro h
    cases hfind : pyFind w tl with
    | some idx =>
      refine ⟨?_, w, List.mem_cons_self w ws, idx, hfind, ?_⟩
      · simp [checkWakeGo, hfind]
      · simp [checkWakeGo, hfind]
    | none =>
      simp only [checkWakeGo, hfind]
      have h' : ∃ w' ∈ ws, containsSub w' tl = true := by
        rcases h with ⟨w', hmem, hc⟩
        rcases List.mem_cons.mp hmem with heq | hmem'
        · subst heq
          rw [containsSub, hfind] at hc
          cases hc
        · exact ⟨w', hmem', hc⟩
      obtain ⟨h1, w', hm, idx, hf, hsnd⟩ := ih h'
      exact ⟨h1, w', List.mem_cons_of_mem _ hm, idx, hf, hsnd⟩

theorem checkWakeGo_none {text tl : List Char} :
    ∀ ws : List (List Char), (∀ w ∈ ws, pyFind w tl = none) →
    checkWakeGo text tl ws = (false, []) := by
  intro ws
  induction ws with
  | nil => intro _; rfl
  | cons w ws ih =>
    intro h
    have hw := h w (List.mem_cons_self w ws)
    simp only [checkWakeGo, hw]
    exact ih (fun w' hm => h w' (List.mem_cons_of_mem _ hm))

theorem checkWakeGo_fst_eq {t1 t2 tl : List Char} :
    ∀ ws : List (List Char), (checkWakeGo t1 tl ws).1 = (checkWakeGo t2 tl ws).1 := by
  intro ws
  induction ws with
  | nil => rfl
  | cons w ws ih =>
    cases hfind : pyFind w tl with
    | some idx => simp [checkWakeGo, hfind]
    | none =>
      simp only [checkWakeGo, hfind]
      exact ih

theorem checkWakeGo_first {text tl : List Char} :
    ∀ (pre : List (List Char)) (w : List Char) (post : List (List Char)) (idx : Nat),
    (∀ w' ∈ pre, pyFind w' tl = none) → pyFind w tl = some idx →
    checkWakeGo text tl (pre ++ w :: post) =
      (true, pyStrip (text.drop (idx + w.length))) := by
  intro pre
  induction pre with
  | nil =>
    intro w post idx _ hf
    simp only [List.nil_append, checkWakeGo, hf]
  | cons w0 pre ih =>
    intro w post idx hpre hf
    have h0 := hpre w0 (List.mem_cons_self w0 pre)
    simp only [List.cons_append, checkWakeGo, h0]
    exact ih w post idx (fun w' hm => hpre w' (List.mem_cons_of_mem _ hm)) hf

theorem pyFind_none_of_containsSub_false {w tl : List Char}
    (h : containsSub w tl = false) : pyFind w tl = none := by
  cases hx : pyFind w tl with
  | none => rfl
  | some i =>
    rw [containsSub, hx] at h
    cases h

/-! ### Claim theorems -/

/-- Claim C1: a dictation session terminates only when at least
SILENCE_TIMEOUT (2 seconds) of wall-clock time has elapsed since the most
recent non-empty trimmed Final or Partial transcript event, or since
session start if none occurred (first conjunct); the silence check is
evaluated after every poll cycle, so the loop continues only while the
condition fails (second conjunct); and a non-empty Partial event resets
the silence clock without appending any text to the accumulator (third
conjunct). -/
theorem C1_silence_timeout_termination :
    (∀ (t0 : ℚ) (ps : List Poll) (st : SessionSt) (T : ℚ),
      runSession ⟨[], t0⟩ ps = .ok (st, some T) →
      ∃ pre p suf, ps = pre ++ p :: suf ∧ T = p.time ∧
        SILENCE_TIMEOUT ≤ p.time - lastSpeechAt t0 (pre ++ [p])) ∧
    (∀ (st st' : SessionSt) (p : Poll),
      stepSession st p = .ok (st', false) →
      p.time - st'.last_speech_time < SILENCE_TIMEOUT) ∧
    (∀ (st st' : SessionSt) (b : Bool) (τ : ℚ) (t : List Char),
      stepSession st ⟨some ⟨false, .jsonField t⟩, τ⟩ = .ok (st', b) →
      st'.text_parts = st.text_parts ∧
        (pyStrip t ≠ [] → st'.last_speech_time = τ)) := by
  refine ⟨?_, ?_, ?_⟩
  · intro t0 ps st T h
    exact runSession_break h
  · intro st st' p h
    exact (stepSession_last h).2.2 rfl
  · intro st st' b τ t h
    by_cases hs : pyStrip t = []
    · simp only [stepSession, hs, reduceIte, ite_self,
        if_neg Bool.false_ne_true, Except.ok.injEq] at h
      obtain ⟨hst, _, _⟩ := afterCheck_eq h
      subst hst
      exact ⟨rfl, fun hc => absurd hs hc⟩
    · simp only [stepSession, hs, reduceIte, ite_self,
        if_neg Bool.false_ne_true, Except.ok.injEq] at h
      obtain ⟨hst, _, _⟩ := afterCheck_eq h
      subst hst
      exact ⟨rfl, fun _ => rfl⟩

/-- Witness for C1 at a concrete trace: Final "a" at time 0, then an empty
poll at time 3, terminates at time 3 with 3 - 0 at least the timeout. -/
theorem C1_witness :
    ∃ pre p suf,
      ([⟨some ⟨true, .jsonField "a".toList⟩, 0⟩, ⟨none, 3⟩] : List Poll) =
        pre ++ p :: suf ∧ (3 : ℚ) = p.time ∧
      SILENCE_TIMEOUT ≤ p.time - lastSpeechAt 0 (pre ++ [p]) :=
  C1_silence_timeout_termination.1 0
    [⟨some ⟨true, .jsonField "a".toList⟩, 0⟩, ⟨none, 3⟩] ⟨["a".toList], 0⟩ 3
    (by
      simp only [runSession, stepSession, afterCheck,
        show pyStrip "a".toList = "a".toList from by decide]
      norm_num [SILENCE_TIMEOUT])

/-- Claim C2: the delivered text equals the accumulated fragments joined
by single spaces in arrival order, with the seeded wake-phrase remainder
(when non-empty) as the first fragment; composing the parts produced by
any session run satisfies this (first conjunct); seeding "hello" followed
by Final "world" yields "hello world" (second conjunct); an empty
accumulator yields the empty string (third conjunct). -/
theorem C2_joined_output :
    (∀ (t0 : ℚ) (ps : List Poll) (st : SessionSt) (r : Option ℚ) (rem : List Char),
      runSession ⟨[], t0⟩ ps = .ok (st, r) →
      composeFull rem st.text_parts =
        joinSpace ((if rem = [] then [] else [rem]) ++ st.text_parts)) ∧
    composeFull "hello".toList ["world".toList] = "hello world".toList ∧
    composeFull [] [] = [] := by
  refine ⟨?_, by decide, by decide⟩
  intro t0 ps st r rem h
  have hne : ∀ q ∈ st.text_parts, q ≠ [] :=
    runSession_parts_ne h (by intro q hq; cases hq)
  exact composeFull_eq hne

/-- Witness for C2 at a concrete run: the session that hears Final "world"
composes, with seed "hello", exactly the space-join of both fragments. -/
theorem C2_witness :
    composeFull "hello".toList (SessionSt.text_parts ⟨["world".toList], 0⟩) =
      joinSpace ((if "hello".toList = ([] : List Char) then [] else ["hello".toList]) ++
        SessionSt.text_parts ⟨["world".toList], 0⟩) :=
  C2_joined_output.1 0 [⟨some ⟨true, .jsonField "world".toList⟩, 0⟩]
    ⟨["world".toList], 0⟩ none "hello".toList
    (by
      have hw : pyStrip "world".toList = "world".toList := by decide
      have hne : ¬("world".toList = ([] : List Char)) := by decide
      simp only [runSession, stepSession, afterCheck, hw, if_neg hne]
      norm_num [SILENCE_TIMEOUT])

/-- Claim C3: a text containing any configured wake-word variant in its
lowered form yields a present result whose remainder is the original text
after the matched occurrence, trimmed (first conjunct); a text containing
no variant yields an absent result (second conjunct); and detection
depends only on the lowered text, so changing only the case of the input
never changes whether a match is detected (third conjunct). -/
theorem C3_case_insensitive_matcher :
    (∀ (text : List Char) (lang : Lang),
      (∃ w ∈ wake_words lang, containsSub w (text.map pyLower) = true) →
      (check_wake_word text lang).1 = true ∧
      ∃ w ∈ wake_words lang, ∃ idx, pyFind w (text.map pyLower) = some idx ∧
        (check_wake_word text lang).2 = pyStrip (text.drop (idx + w.length))) ∧
    (∀ (text : List Char) (lang : Lang),
      (∀ w ∈ wake_words lang, containsSub w (text.map pyLower) = false) →
      (check_wake_word text lang).1 = false) ∧
    (∀ (t1 t2 : List Char) (lang : Lang), t1.map pyLower = t2.map pyLower →
      (check_wake_word t1 lang).1 = (check_wake_word t2 lang).1) := by
  refine ⟨?_, ?_, ?_⟩
  · intro text lang h
    exact checkWakeGo_found (wake_words lang) h
  · intro text lang h
    have h' : ∀ w ∈ wake_words lang, pyFind w (text.map pyLower) = none :=
      fun w hm => pyFind_none_of_containsSub_false (h w hm)
    unfold check_wake_word
    rw [checkWakeGo_none (wake_words lang) h']
  · intro t1 t2 lang heq
    unfold check_wake_word
    rw [heq]
    exact checkWakeGo_fst_eq (wake_words lang)

/-- Witness for C3 at the text "Hey Computer turn on" with the en profile:
a variant occurs, a match is reported, and the remainder is the original
text after the occurrence, trimmed. -/
theorem C3_witness :
    (check_wake_word "Hey Computer turn on".toList .en).1 = true ∧
    ∃ w ∈ wake_words .en, ∃ idx,
      pyFind w ("Hey Computer turn on".toList.map pyLower) = some idx ∧
      (check_wake_word "Hey Computer turn on".toList .en).2 =
        pyStrip ("Hey Computer turn on".toList.drop (idx + w.length)) :=
  C3_case_insensitive_matcher.1 "Hey Computer turn on".toList .en (by decide)

/-- Claim C9: a text containing no configured wake-word variant yields
exactly the pair of false and the empty remainder. -/
theorem C9_no_match_empty_pair :
    ∀ (text : List Char) (lang : Lang),
      (∀ w ∈ wake_words lang, containsSub w (text.map pyLower) = false) →
      check_wake_word text lang = (false, []) := by
  intro text lang h
  have h' : ∀ w ∈ wake_words lang, pyFind w (text.map pyLower) = none :=
    fun w hm => pyFind_none_of_containsSub_false (h w hm)
  unfold check_wake_word
  exact checkWakeGo_none (wake_words lang) h'

/-- Witness for C9 at the text "привет споки" with the ru profile. -/
theorem C9_witness :
    check_wake_word "привет споки".toList .ru = (false, []) :=
  C9_no_match_empty_pair "привет споки".toList .ru (by decide)

/-- Counterexample to claim C4: in the text "компютер компьютер" under
the ru profile, the configured phrase occurring earliest in the text is
"компютер" at index 0 (as specEarliestMatch, written from the claim
wording, reports), so the claim requires the remainder after that
occurrence, which is "компьютер"; check_wake_word instead selects the
first configured phrase "компьютер" at its occurrence at index 9 and
returns the empty remainder. -/
theorem C4_counterexample :
    specEarliestMatch cexText .ru = some ("компютер".toList, 0) ∧
    check_wake_word cexText .ru = (true, []) ∧
    pyStrip (cexText.drop (0 + ("компютер".toList).length)) = "компьютер".toList ∧
    (check_wake_word cexText .ru).2 ≠
      pyStrip (cexText.drop (0 + ("компютер".toList).length)) :=
  ⟨by decide, by decide, by decide, by decide⟩

/-- Claim C4 as amended: the matcher selects the first configured phrase
in the declared order of the profile that occurs anywhere in the text
(regardless of occurrence position), and the remainder is taken after the
end of the earliest occurrence of that selected phrase, trimmed. -/
theorem C4_declared_order_first :
    ∀ (text : List Char) (lang : Lang) (pre post : List (List Char))
      (w : List Char) (idx : Nat),
      wake_words lang = pre ++ w :: post →
      (∀ w' ∈ pre, pyFind w' (text.map pyLower) = none) →
      pyFind w (text.map pyLower) = some idx →
      check_wake_word text lang = (true, pyStrip (text.drop (idx + w.length))) := by
  intro text lang pre post w idx hw hpre hf
  unfold check_wake_word
  rw [hw]
  exact checkWakeGo_first pre w post idx hpre hf

/-- Witness for the amended C4: "компьютер свет" matches the first
configured ru phrase at index 0 and the remainder is "свет". -/
theorem C4_witness :
    check_wake_word "компьютер свет".toList .ru =
      (true, pyStrip ("компьютер свет".toList.drop
        (0 + ("компьютер".toList).length))) :=
  C4_declared_order_first "компьютер свет".toList .ru [] ["компютер".toList]
    "компьютер".toList 0 rfl (by intro w' hw'; cases hw') (by decide)

/-- Claim C5: in the waiting state the languages are evaluated in the
given order and the first language whose Final text matches its own wake
phrases wins: the scan result carries that language and remainder, the
evaluated languages are exactly those up to and including the winner, and
the languages after it are not evaluated for that frame, so their events
are discarded even if they would also match. -/
theorem C5_first_language_wins :
    ∀ (pre : List (Lang × Frame)) (L : Lang) (f : Frame)
      (post : List (Lang × Frame)) (raw rem : List Char),
      (∀ x ∈ pre, evalNoMatch x) →
      f.accepted = true →
      wakeText f.payload = some raw →
      check_wake_word (pyStrip raw) L = (true, rem) →
      wakeScan (pre ++ (L, f) :: post) =
        .ok (some (L, rem), pre.map Prod.fst ++ [L]) := by
  intro pre
  induction pre with
  | nil =>
    intro L f post raw rem _ hacc hraw hchk
    simp only [List.nil_append, wakeScan, hacc, if_true, hraw, hchk, List.map_nil]
  | cons x pre ih =>
    intro L f post raw rem hpre hacc hraw hchk
    have hx := hpre x (List.mem_cons_self x pre)
    have hpre' : ∀ y ∈ pre, evalNoMatch y :=
      fun y hm => hpre y (List.mem_cons_of_mem _ hm)
    have hrec := ih L f post raw rem hpre' hacc hraw hchk
    rcases x with ⟨lx, fx⟩
    by_cases haccx : fx.accepted = true
    · rcases hx with hx | ⟨rawx, hrawx, hchkx⟩
      · rw [haccx] at hx; cases hx
      · cases hcw : check_wake_word (pyStrip rawx) lx with
        | mk b2 r2 =>
          rw [hcw] at hchkx
          simp only at hchkx
          subst hchkx
          simp only [List.cons_append, wakeScan, haccx, if_true, hrawx, hcw,
            List.append_eq, hrec, List.map_cons]
    · have hfalse : fx.accepted = false := by
        cases hb : fx.accepted
        · rfl
        · exact absurd hb haccx
      simp only [List.cons_append, wakeScan, hfalse, Bool.false_eq_true, if_false,
        List.append_eq, hrec, List.map_cons]

/-- Witness for C5: with both languages reporting a matching Final event
for the same frame, the scan returns the ru match and evaluates only ru;
the matching en event is discarded without being evaluated. -/
theorem C5_witness :
    wakeScan [(.ru, ⟨true, .jsonField "компьютер привет".toList⟩),
              (.en, ⟨true, .jsonField "computer hello".toList⟩)] =
      .ok (some (.ru, "привет".toList), [.ru]) :=
  C5_first_language_wins [] .ru ⟨true, .jsonField "компьютер привет".toList⟩
    [(.en, ⟨true, .jsonField "computer hello".toList⟩)]
    "компьютер привет".toList "привет".toList
    (by intro x hx; cases hx) rfl rfl (by decide)

/-- Counterexample to claim C6: in the dictation cycle the recognizer
resets do not precede the session; the concrete cycle below produces a
trace in which no reset occurs before the session start, although the
trace does contain resets, so the claim that all RecognizerPorts are
reset before the fresh DictationSession begins is false of the code. -/
theorem C6_counterexample :
    dictationCycle .ru "привет".toList 0 [⟨none, 5⟩] =
      .ok ([.createFresh .ru, .sessionStart .ru, .sessionEnd,
            .emit "привет".toList, .resetPort .ru, .resetPort .en],
           "привет".toList) ∧
    someResetBeforeStart [.createFresh .ru, .sessionStart .ru, .sessionEnd,
      .emit "привет".toList, .resetPort .ru, .resetPort .en] = false ∧
    Effect.resetPort .ru ∈ ([.createFresh .ru, .sessionStart .ru, .sessionEnd,
      .emit "привет".toList, .resetPort .ru, .resetPort .en] : List Effect) := by
  refine ⟨?_, by decide, by decide⟩
  simp only [dictationCycle, runSession, stepSession, afterCheck]
  norm_num [SILENCE_TIMEOUT]
  decide

/-- Claim C6 as amended: on a wake-phrase match a fresh recognizer is
created for the session before it begins; every TextSink emission and
every RecognizerPort reset occurs only after the session ends, at the
transition back to the waiting state, and never mid-session; all
configured ports are reset after the session completes, and any emission
carries exactly the composed dictation text. -/
theorem C6_effects_at_transitions :
    ∀ (lang : Lang) (rem : List Char) (t0 : ℚ) (ps : List Poll)
      (tr : List Effect) (full : List Char),
      dictationCycle lang rem t0 ps = .ok (tr, full) →
      ∃ post, tr = [.createFresh lang, .sessionStart lang] ++
          Effect.sessionEnd :: post ∧
        (∀ l : Lang, Effect.resetPort l ∈ post) ∧
        (∀ t, Effect.emit t ∈ post → t = full) ∧
        (∀ e ∈ [Effect.createFresh lang, Effect.sessionStart lang],
          isResetEffect e = false ∧ isEmitEffect e = false) := by
  intro lang rem t0 ps tr full h
  unfold dictationCycle at h
  cases hrun : runSession ⟨[], t0⟩ ps with
  | error e => rw [hrun] at h; cases h
  | ok r =>
    rcases r with ⟨st, r2⟩
    rw [hrun] at h
    simp only [Except.ok.injEq, Prod.mk.injEq] at h
    obtain ⟨htr, hfull⟩ := h
    refine ⟨(if full = [] then [] else [.emit full]) ++
      [.resetPort .ru, .resetPort .en], ?_, ?_, ?_, ?_⟩
    · rw [← htr, hfull]
      by_cases hc : composeFull rem st.text_parts = [] <;> simp [hc]
    · intro l
      by_cases hc : full = [] <;> cases l <;> simp [hc]
    · intro t ht
      by_cases hc : full = []
      · rw [if_pos hc] at ht
        simp at ht
      · rw [if_neg hc] at ht
        simp at ht
        exact ht
    · intro e he
      rcases List.mem_cons.mp he with heq | he'
      · subst heq; exact ⟨rfl, rfl⟩
      · rcases List.mem_cons.mp he' with heq | he''
        · subst heq; exact ⟨rfl, rfl⟩
        · cases he''

/-- Witness for the amended C6 at a concrete cycle: remainder "hi", one
silent poll at time 5. -/
theorem C6_witness :
    ∃ post, ([Effect.createFresh .en, Effect.sessionStart .en, Effect.sessionEnd,
        Effect.emit "hi".toList, Effect.resetPort .ru, Effect.resetPort .en] :
          List Effect) =
        [.createFresh .en, .sessionStart .en] ++ Effect.sessionEnd :: post ∧
      (∀ l : Lang, Effect.resetPort l ∈ post) ∧
      (∀ t, Effect.emit t ∈ post → t = "hi".toList) ∧
      (∀ e ∈ [Effect.createFresh Lang.en, Effect.sessionStart Lang.en],
        isResetEffect e = false ∧ isEmitEffect e = false) :=
  C6_effects_at_transitions .en "hi".toList 0 [⟨none, 5⟩]
    [Effect.createFresh .en, Effect.sessionStart .en, Effect.sessionEnd,
     Effect.emit "hi".toList, Effect.resetPort .ru, Effect.resetPort .en]
    "hi".toList
    (by
      simp only [dictationCycle, runSession, stepSession, afterCheck]
      norm_num [SILENCE_TIMEOUT]
      decide)

/-- Claim C7 evaluated on the code: a timeout or a nonzero exit status of
the injection command is a SubprocessError, caught and logged, and the
dispatcher returns to waiting; but a process-not-found failure raises
FileNotFoundError, which subprocess.SubprocessError does not cover, so it
escapes type_text without an error log and the outer handler of main
exits the process instead of returning to waiting. -/
theorem C7_process_not_found_fatal :
    afterTypeText (type_text "привет".toList (.raises .fileNotFoundError)) =
      .processExit ∧
    (type_text "привет".toList (.raises .fileNotFoundError)).logs =
      [.infoTyping "привет".toList] ∧
    afterTypeText (type_text "привет".toList (.raises .timeoutExpired)) =
      .backToWaiting ∧
    afterTypeText (type_text "привет".toList (.raises .calledProcessError)) =
      .backToWaiting :=
  ⟨by decide, by decide, by decide, by decide⟩

/-- Counterexample to claim C8: a frame whose recognizer output is not
valid JSON makes json.loads raise, and neither the dictation loop nor the
wake loop catches it, so the loop aborts (Except.error models the
uncaught exception) instead of skipping the frame. -/
theorem C8_counterexample :
    runSession ⟨[], 0⟩ [⟨some ⟨true, .notJson⟩, 0⟩] = .error () ∧
    wakeScan [(.ru, ⟨true, .notJson⟩)] = .error () :=
  ⟨rfl, rfl⟩

/-- Claim C8 as amended: recognizer output that is valid JSON but missing
the expected field is handled as a recoverable per-frame event: the frame
text is treated as empty and skipped, the session state is unchanged and
the wake loop goes on to the next language (first and third conjuncts);
output that is not valid JSON raises an uncaught exception that
terminates the loop (second conjunct). -/
theorem C8_missing_field_skipped :
    (∀ (st : SessionSt) (τ : ℚ) (a : Bool),
      stepSession st ⟨some ⟨a, .jsonMissing⟩, τ⟩ =
        .ok (afterCheck ⟨some ⟨a, .jsonMissing⟩, τ⟩ st) ∧
      (afterCheck ⟨some ⟨a, .jsonMissing⟩, τ⟩ st).1 = st) ∧
    (∀ (st : SessionSt) (τ : ℚ) (a : Bool),
      stepSession st ⟨some ⟨a, .notJson⟩, τ⟩ = .error ()) ∧
    (∀ (lang : Lang) (rest : List (Lang × Frame))
      (res : Option (Lang × List Char)) (ev : List Lang),
      wakeScan rest = .ok (res, ev) →
      wakeScan ((lang, ⟨true, .jsonMissing⟩) :: rest) = .ok (res, lang :: ev)) := by
  refine ⟨?_, ?_, ?_⟩
  · intro st τ a
    constructor
    · cases a <;> rfl
    · unfold afterCheck
      split <;> rfl
  · intro st τ a
    cases a <;> rfl
  · intro lang rest res ev hrest
    have hchk : check_wake_word (pyStrip []) lang = (false, []) := by
      cases lang <;> decide
    simp only [wakeScan, if_true, wakeText, hchk, hrest]

/-- Witness for the amended C8: a missing-field frame in the wake loop is
skipped and the scan moves on, without an exception. -/
theorem C8_witness :
    wakeScan [(.en, ⟨true, .jsonMissing⟩)] = .ok (none, [.en]) :=
  C8_missing_field_skipped.2.2 .en [] none [] rfl

/-- Claim C10: a string whose trimmed form is empty makes type_text return
before logging anything and before invoking the external command,
whatever the external outcome would have been: no log records, no
invocation, no escaping exception. -/
theorem C10_blank_text_silent :
    ∀ (t : List Char) (out : RunOutcome), pyStrip t = [] →
      type_text t out = ⟨[], false, none⟩ := by
  intro t out h
  simp [type_text, h]

/-- Witness for C10 on the whitespace-only string of three spaces. -/
theorem C10_witness :
    type_text "   ".toList RunOutcome.ok = ⟨[], false, none⟩ :=
  C10_blank_text_silent "   ".toList .ok (by decide)

end VoiceAssistant
